import Mathlib

/-!
Verification of the technical-indicator and signal-scoring engine of the
Rational-Investor repository.

The engine is a set of pure functions over sequences of daily closing
prices.  JavaScript numbers are modelled as rationals (`ℚ`); the
"not applicable" sentinel (JS `NaN`) and the absent value (JS `undefined`)
are both falsy non-numbers for every comparison the engine performs, and
are modelled together as `none : Option ℚ`.
-/

namespace RationalInvestor

/-- One value of the simple-moving-average series: the body of the loop of
`calculateSMA` at index `i`.  The JS test `i < period - 1` over integers is
`i + 1 < period` over naturals; `prices.slice(i - period + 1, i + 1)` is
`(prices.drop (i + 1 - period)).take period`. -/
def smaVal (prices : List ℚ) (period : ℕ) (i : ℕ) : Option ℚ :=
  if i + 1 < period then none
  else some (((prices.drop (i + 1 - period)).take period).sum / (period : ℚ))

/-- `calculateSMA(prices, period)`: the loop pushes `smaVal` for each index
`0 ≤ i < prices.length`. -/
def calculateSMA (prices : List ℚ) (period : ℕ) : List (Option ℚ) :=
  (List.range prices.length).map (smaVal prices period)

/-- One value of the exponential-moving-average series: the entry the loop of
`calculateEMA` pushes at index `i`.  The loop reads `result[i - 1]`, which is
the value this function returns at `i - 1`; at `i = 0` in the final branch the
JS read `result[-1]` is `undefined` and the arithmetic yields `NaN` (`none`). -/
def emaVal (prices : List ℚ) (period : ℕ) : ℕ → Option ℚ
  | 0 =>
    if 0 + 1 < period then none
    else if 0 + 1 = period then some ((prices.take period).sum / (period : ℚ))
    else none
  | i + 1 =>
    if i + 1 + 1 < period then none
    else if i + 1 + 1 = period then some ((prices.take period).sum / (period : ℚ))
    else
      (emaVal prices period i).map fun prev =>
        (prices.getD (i + 1) 0 - prev) * (2 / ((period : ℚ) + 1)) + prev

/-- `calculateEMA(prices, period)`. -/
def calculateEMA (prices : List ℚ) (period : ℕ) : List (Option ℚ) :=
  (List.range prices.length).map (emaVal prices period)

/-- The `changes` array of `calculateRSI`: day-over-day differences,
`changes[j] = prices[j+1] - prices[j]` for `0 ≤ j < prices.length - 1`. -/
def priceChanges (prices : List ℚ) : List ℚ :=
  (List.range (prices.length - 1)).map fun j => prices.getD (j + 1) 0 - prices.getD j 0

/-- `changes.slice(-period)`: the most recent `period` differences. -/
def recentChanges (prices : List ℚ) (period : ℕ) : List ℚ :=
  (priceChanges prices).drop ((priceChanges prices).length - period)

/-- The gains/losses accumulation loop of `calculateRSI`: positive changes are
summed into gains, others contribute their absolute value to losses. -/
def gainsLosses (changes : List ℚ) : ℚ × ℚ :=
  changes.foldl
    (fun gl change => if 0 < change then (gl.1 + change, gl.2) else (gl.1, gl.2 + |change|))
    (0, 0)

/-- `calculateRSI(prices, period = 14)`. -/
def calculateRSI (prices : List ℚ) (period : ℕ := 14) : ℚ :=
  if prices.length < period + 1 then 50
  else
    let gl := gainsLosses (recentChanges prices period)
    let avgGain := gl.1 / (period : ℚ)
    let avgLoss := gl.2 / (period : ℚ)
    if avgLoss = 0 then 100
    else
      let rs := avgGain / avgLoss
      100 - 100 / (1 + rs)

/-- Result record of `calculateMACD`. -/
structure MACDResult where
  macd : ℚ
  signal : ℚ
  histogram : ℚ
deriving DecidableEq, Repr

/-- The `macdLine` array of `calculateMACD`: `ema12[i] - ema26[i]` where both
are numbers, `NaN` (`none`) where either is `NaN`. -/
def macdLine (prices : List ℚ) : List (Option ℚ) :=
  (List.range prices.length).map fun i =>
    match (calculateEMA prices 12).getD i none, (calculateEMA prices 26).getD i none with
    | some a, some b => some (a - b)
    | _, _ => none

/-- `macdLine.filter(v => !isNaN(v))`: the defined MACD values, compacted. -/
def validMacd (prices : List ℚ) : List ℚ :=
  (macdLine prices).filterMap id

/-- `calculateMACD(prices)`.  `x || 0` on the possibly-missing last elements
is `Option.getD 0`; the last element of the signal line may itself be `NaN`
(`none`), which `|| 0` also sends to `0`. -/
def calculateMACD (prices : List ℚ) : MACDResult :=
  let signalLine := calculateEMA (validMacd prices) 9
  let macd := (validMacd prices).getLast?.getD 0
  let signal := (signalLine.getLast?.getD none).getD 0
  let histogram := macd - signal
  ⟨macd, signal, histogram⟩

/-- `StockPrice` of `@shared/schema` (the shared schema staged in
`src/client/src/components/metric-card.tsx`): a row of the `stockPrices`
table — `id`, `stockId`, `date` (a timestamp, modelled as an integer
instant), non-null `open`/`high`/`low`/`close` reals and a nullable
`volume` integer.  `open` is a reserved word in Lean, hence `openPrice`.
The engine reads only `close`. -/
structure StockPrice where
  id : ℤ
  stockId : ℤ
  date : ℤ
  openPrice : ℚ
  high : ℚ
  low : ℚ
  close : ℚ
  volume : Option ℤ
deriving DecidableEq

/-- `TechnicalIndicators` of `@shared/schema` (the shared schema staged in
`src/client/src/components/metric-card.tsx`): nine optional `number`
fields.  An absent field and a `NaN` value are modelled together as
`none`, as both are falsy non-numbers for every comparison `analyzeStock`
performs. -/
structure TechnicalIndicators where
  sma20 : Option ℚ := none
  sma50 : Option ℚ := none
  sma200 : Option ℚ := none
  ema12 : Option ℚ := none
  ema26 : Option ℚ := none
  rsi : Option ℚ := none
  macd : Option ℚ := none
  macdSignal : Option ℚ := none
  macdHistogram : Option ℚ := none
deriving DecidableEq

/-- `calculateIndicators(prices)`: empty input yields the empty snapshot;
otherwise each series is computed over the closing prices and its last
element (`arr[arr.length - 1]`) populates the snapshot. -/
def calculateIndicators (prices : List StockPrice) : TechnicalIndicators :=
  if prices.length = 0 then {}
  else
    let closePrices := prices.map (fun p => p.close)
    let sma20Arr := calculateSMA closePrices 20
    let sma50Arr := calculateSMA closePrices 50
    let sma200Arr := calculateSMA closePrices 200
    let ema12Arr := calculateEMA closePrices 12
    let ema26Arr := calculateEMA closePrices 26
    let rsi := calculateRSI closePrices 14
    let macdResult := calculateMACD closePrices
    { sma20 := sma20Arr.getD (sma20Arr.length - 1) none
      sma50 := sma50Arr.getD (sma50Arr.length - 1) none
      sma200 := sma200Arr.getD (sma200Arr.length - 1) none
      ema12 := ema12Arr.getD (ema12Arr.length - 1) none
      ema26 := ema26Arr.getD (ema26Arr.length - 1) none
      rsi := some rsi
      macd := some macdResult.macd
      macdSignal := some macdResult.signal
      macdHistogram := some macdResult.histogram }

inductive Trend where
  | bullish
  | bearish
  | neutral
deriving DecidableEq, Repr

inductive RsiLabel where
  | oversold
  | overbought
  | neutral
deriving DecidableEq, Repr

inductive MacdLabel where
  | buy
  | sell
  | neutral
deriving DecidableEq, Repr

/-- Result record of `analyzeStock`. -/
structure StockAnalysis where
  trend : Trend
  rsiSignal : RsiLabel
  macdSignal : MacdLabel
  overallScore : ℤ
deriving DecidableEq, Repr

/-- `Math.round`: round half away from zero coincides with `⌊x + 1/2⌋` for
every finite argument the engine produces. -/
def jsRound (x : ℚ) : ℤ := ⌊x + 1 / 2⌋

/-- The moving-average block of `analyzeStock`.  The JS guard
`indicators.sma20 && indicators.sma50 && indicators.sma200` tests
truthiness: a field that is absent, `NaN` (both `none`) or `0` disables the
whole block. -/
def trendStep (currentPrice : ℚ) (indicators : TechnicalIndicators) (score : ℚ) :
    Trend × ℚ :=
  match indicators.sma20, indicators.sma50, indicators.sma200 with
  | some s20, some s50, some s200 =>
    if s20 ≠ 0 ∧ s50 ≠ 0 ∧ s200 ≠ 0 then
      let t1 : Trend × ℚ :=
        if s20 < currentPrice ∧ s50 < s20 then (Trend.bullish, score + 15)
        else if currentPrice < s20 ∧ s20 < s50 then (Trend.bearish, score - 15)
        else (Trend.neutral, score)
      (t1.1, if s200 < currentPrice then t1.2 + 10 else t1.2 - 10)
    else (Trend.neutral, score)
  | _, _, _ => (Trend.neutral, score)

/-- The RSI block of `analyzeStock` (guard: `indicators.rsi !== undefined`). -/
def rsiStep (indicators : TechnicalIndicators) (score : ℚ) : RsiLabel × ℚ :=
  match indicators.rsi with
  | some r =>
    if r < 30 then (RsiLabel.oversold, score + 10)
    else if 70 < r then (RsiLabel.overbought, score - 10)
    else (RsiLabel.neutral, score)
  | none => (RsiLabel.neutral, score)

/-- The MACD block of `analyzeStock`.  `indicators.macdHistogram! > 0` is
false in JS when the histogram is absent, exactly as `Option.getD 0 > 0`. -/
def macdStep (indicators : TechnicalIndicators) (score : ℚ) : MacdLabel × ℚ :=
  match indicators.macd, indicators.macdSignal with
  | some m, some s =>
    if s < m ∧ 0 < indicators.macdHistogram.getD 0 then (MacdLabel.buy, score + 10)
    else if m < s ∧ indicators.macdHistogram.getD 0 < 0 then (MacdLabel.sell, score - 10)
    else (MacdLabel.neutral, score)
  | _, _ => (MacdLabel.neutral, score)

/-- `analyzeStock` up to but excluding the final clamp/round: the three
signal labels and the accumulated score. -/
def analyzeCore (currentPrice : ℚ) (indicators : TechnicalIndicators) :
    Trend × RsiLabel × MacdLabel × ℚ :=
  let t := trendStep currentPrice indicators 50
  let r := rsiStep indicators t.2
  let m := macdStep indicators r.2
  (t.1, r.1, m.1, m.2)

/-- The raw score of `analyzeStock` before `Math.max(0, Math.min(100, ·))`. -/
def rawScore (currentPrice : ℚ) (indicators : TechnicalIndicators) : ℚ :=
  (analyzeCore currentPrice indicators).2.2.2

/-- `analyzeStock(currentPrice, indicators)`. -/
def analyzeStock (currentPrice : ℚ) (indicators : TechnicalIndicators) :
    StockAnalysis :=
  let c := analyzeCore currentPrice indicators
  { trend := c.1
    rsiSignal := c.2.1
    macdSignal := c.2.2.1
    overallScore := jsRound (max 0 (min 100 c.2.2.2)) }

/-- `getSMAArrays(prices)`. -/
def getSMAArrays (prices : List StockPrice) : List (Option ℚ) × List (Option ℚ) :=
  let closePrices := prices.map (fun p => p.close)
  (calculateSMA closePrices 20, calculateSMA closePrices 50)

/-- A snapshot triggering every bullish adjustment at price 100:
trend bullish (+15), above the 200-day average (+10), oversold RSI (+10)
and a positive MACD crossover (+10). -/
def allBullishSnapshot : TechnicalIndicators :=
  { sma20 := some 50
    sma50 := some 40
    sma200 := some 10
    rsi := some 20
    macd := some 2
    macdSignal := some 1
    macdHistogram := some 1 }

/-- A snapshot triggering every bearish adjustment at price 10. -/
def allBearishSnapshot : TechnicalIndicators :=
  { sma20 := some 20
    sma50 := some 30
    sma200 := some 50
    rsi := some 80
    macd := some (-2)
    macdSignal := some (-1)
    macdHistogram := some (-1) }

/-- A snapshot whose three SMA fields are all present but whose `sma200`
is `0`, hence falsy for the JS truthiness guard of `analyzeStock`. -/
def zeroSma200Snapshot : TechnicalIndicators :=
  { sma20 := some 1
    sma50 := some 1
    sma200 := some 0 }

/-- A snapshot whose three SMA fields are present and nonzero (truthy). -/
def truthySnapshotExample : TechnicalIndicators :=
  { sma20 := some 2
    sma50 := some 3
    sma200 := some 5 }

/-- Following the spec: the score adjustment attached to each reported
trend label (`bullish` +15, `bearish` −15, `neutral` 0). -/
def specTrendDelta : Trend → ℚ
  | Trend.bullish => 15
  | Trend.bearish => -15
  | Trend.neutral => 0

/-- Following the spec: the score adjustment attached to each reported RSI
label (`oversold` +10, `overbought` −10, `neutral` 0). -/
def specRsiDelta : RsiLabel → ℚ
  | RsiLabel.oversold => 10
  | RsiLabel.overbought => -10
  | RsiLabel.neutral => 0

/-- Following the spec: the score adjustment attached to each reported MACD
label (`buy` +10, `sell` −10, `neutral` 0). -/
def specMacdDelta : MacdLabel → ℚ
  | MacdLabel.buy => 10
  | MacdLabel.sell => -10
  | MacdLabel.neutral => 0

/-- The strictly monotonically increasing linear price sequence
`prices[i] = a + b * i` of length `N`. -/
def linearPrices (a b : ℚ) (N : ℕ) : List ℚ :=
  (List.range N).map fun i : ℕ => a + b * (i : ℚ)

end RationalInvestor

namespace RationalInvestor

/-! ### Basic lemmas about the series primitives -/

theorem length_calculateSMA (prices : List ℚ) (W : ℕ) :
    (calculateSMA prices W).length = prices.length := by
  simp [calculateSMA]

theorem calculateSMA_getElem? (prices : List ℚ) (W i : ℕ) (h : i < prices.length) :
    (calculateSMA prices W)[i]? = some (smaVal prices W i) := by
  rw [calculateSMA, List.getElem?_map, List.getElem?_range h, Option.map_some']

theorem length_calculateEMA (prices : List ℚ) (W : ℕ) :
    (calculateEMA prices W).length = prices.length := by
  simp [calculateEMA]

theorem calculateEMA_getElem? (prices : List ℚ) (W i : ℕ) (h : i < prices.length) :
    (calculateEMA prices W)[i]? = some (emaVal prices W i) := by
  rw [calculateEMA, List.getElem?_map, List.getElem?_range h, Option.map_some']

theorem emaVal_of_lt (prices : List ℚ) (W i : ℕ) (h : i + 1 < W) :
    emaVal prices W i = none := by
  cases i with
  | zero => rw [emaVal, if_pos h]
  | succ j => rw [emaVal, if_pos h]

theorem emaVal_seed (prices : List ℚ) (W : ℕ) (hW : 1 ≤ W) :
    emaVal prices W (W - 1) = some ((prices.take W).sum / (W : ℚ)) := by
  cases W with
  | zero => omega
  | succ V =>
    cases V with
    | zero => rw [emaVal]; norm_num
    | succ u =>
      show emaVal prices (u + 2) (u + 1) = _
      rw [emaVal, if_neg (by omega), if_pos (by omega)]

theorem emaVal_step (prices : List ℚ) (W i : ℕ) (hW : 1 ≤ W) (h : W ≤ i) :
    emaVal prices W i =
      (emaVal prices W (i - 1)).map fun prev =>
        (prices.getD i 0 - prev) * (2 / ((W : ℚ) + 1)) + prev := by
  cases i with
  | zero => omega
  | succ j => rw [emaVal, if_neg (by omega), if_neg (by omega)]; rfl

theorem emaVal_isSome (prices : List ℚ) (W i : ℕ) (hW : 1 ≤ W) (h : W ≤ i + 1) :
    (emaVal prices W i).isSome := by
  induction i with
  | zero =>
    have hW1 : W = 1 := by omega
    subst hW1
    rw [emaVal]
    norm_num
  | succ j ih =>
    rcases Nat.lt_or_ge j (W - 1) with hj | hj
    · rcases Nat.eq_or_lt_of_le h with h1 | h1
      · have : j + 1 = W - 1 := by omega
        rw [this, emaVal_seed prices W hW]
        rfl
      · have : emaVal prices W (j + 1) = emaVal prices W ((j + 1 + 1) - 1) := by norm_num
        have hs : j + 1 + 1 = W ∨ W ≤ j + 1 := by omega
        rcases hs with hs | hs
        · have : j + 1 = W - 1 := by omega
          rw [this, emaVal_seed prices W hW]
          rfl
        · omega
    · have hWj : W ≤ j + 1 := by omega
      rw [emaVal_step prices W (j + 1) hW hWj]
      have := ih (by omega)
      rcases Option.isSome_iff_exists.mp this with ⟨v, hv⟩
      have : j + 1 - 1 = j := by omega
      rw [this, hv]
      rfl

/-- C1: for every price sequence of length `N` and window `1 ≤ W ≤ N`,
`calculateSMA` returns exactly `N` elements, not-applicable below index
`W - 1`, and at each index `i ≥ W - 1` the arithmetic mean of the `W`-wide
window `prices[i-W+1 .. i]` (the window indeed has length `W`). -/
theorem calculateSMA_spec (prices : List ℚ) (W : ℕ) (hW : 1 ≤ W)
    (hWN : W ≤ prices.length) :
    (calculateSMA prices W).length = prices.length ∧
    (∀ i, i + 1 < W → (calculateSMA prices W)[i]? = some none) ∧
    (∀ i, W ≤ i + 1 → i < prices.length →
      ((prices.drop (i + 1 - W)).take W).length = W ∧
      (calculateSMA prices W)[i]? =
        some (some (((prices.drop (i + 1 - W)).take W).sum / (W : ℚ)))) := by
  refine ⟨length_calculateSMA prices W, ?_, ?_⟩
  · intro i hi
    rw [calculateSMA_getElem? prices W i (by omega), smaVal, if_pos hi]
  · intro i hi hilen
    constructor
    · rw [List.length_take, List.length_drop]
      omega
    · rw [calculateSMA_getElem? prices W i hilen, smaVal, if_neg (by omega)]

/-- C1 witness: the concrete example `calculateSMA([1,2,3,4,5], 3)`. -/
theorem calculateSMA_spec_witness :
    calculateSMA [1, 2, 3, 4, 5] 3 = [none, none, some 2, some 3, some 4] ∧
    ((calculateSMA [1, 2, 3, 4, 5] 3).length = 5 ∧
      (∀ i, i + 1 < 3 → (calculateSMA [1, 2, 3, 4, 5] 3)[i]? = some none) ∧
      (∀ i, 3 ≤ i + 1 → i < 5 →
        ((([1, 2, 3, 4, 5] : List ℚ).drop (i + 1 - 3)).take 3).length = 3 ∧
        (calculateSMA [1, 2, 3, 4, 5] 3)[i]? =
          some (some (((([1, 2, 3, 4, 5] : List ℚ).drop (i + 1 - 3)).take 3).sum / (3 : ℚ))))) :=
  ⟨by simp [calculateSMA, smaVal, List.range_succ]; norm_num,
    calculateSMA_spec [1, 2, 3, 4, 5] 3 (by decide) (by norm_num)⟩

end RationalInvestor

namespace RationalInvestor

/-- C2: for every price sequence of length `N ≥ W ≥ 1`, `calculateEMA`
returns `N` entries: not-applicable before index `W - 1`, the simple average
of the first `W` prices at index `W - 1`, and at every later index `i` the
recurrence `(price[i] - ema[i-1]) * k + ema[i-1]` with `k = 2 / (W + 1)`;
if the first `W` prices are a constant `v` then `EMA[W-1] = v` exactly. -/
theorem calculateEMA_spec (prices : List ℚ) (W : ℕ) (hW : 1 ≤ W)
    (hWN : W ≤ prices.length) :
    (calculateEMA prices W).length = prices.length ∧
    (∀ i, i + 1 < W → (calculateEMA prices W)[i]? = some none) ∧
    (calculateEMA prices W)[W - 1]? = some (some ((prices.take W).sum / (W : ℚ))) ∧
    (∀ i, W ≤ i → i < prices.length → ∃ prev,
      (calculateEMA prices W)[i - 1]? = some (some prev) ∧
      (calculateEMA prices W)[i]? =
        some (some ((prices.getD i 0 - prev) * (2 / ((W : ℚ) + 1)) + prev))) ∧
    (∀ v : ℚ, prices.take W = List.replicate W v →
      (calculateEMA prices W)[W - 1]? = some (some v)) := by
  have hseed : (calculateEMA prices W)[W - 1]? =
      some (some ((prices.take W).sum / (W : ℚ))) := by
    rw [calculateEMA_getElem? prices W (W - 1) (by omega), emaVal_seed prices W hW]
  refine ⟨length_calculateEMA prices W, ?_, hseed, ?_, ?_⟩
  · intro i hi
    rw [calculateEMA_getElem? prices W i (by omega), emaVal_of_lt prices W i hi]
  · intro i hiW hilen
    have hprev : (emaVal prices W (i - 1)).isSome :=
      emaVal_isSome prices W (i - 1) hW (by omega)
    rcases Option.isSome_iff_exists.mp hprev with ⟨prev, hv⟩
    refine ⟨prev, ?_, ?_⟩
    · rw [calculateEMA_getElem? prices W (i - 1) (by omega), hv]
    · rw [calculateEMA_getElem? prices W i hilen, emaVal_step prices W i hW hiW, hv]
      rfl
  · intro v hv
    rw [hseed, hv, List.sum_replicate, nsmul_eq_mul]
    have hWQ : (W : ℚ) ≠ 0 := by positivity
    rw [mul_div_cancel_left₀ v hWQ]

/-- C2 witness: `calculateEMA([2,2,2,5], 3) = [NA, NA, 2, 7/2]`, seeded with
the average of the three constant leading prices. -/
theorem calculateEMA_spec_witness :
    calculateEMA [2, 2, 2, 5] 3 = [none, none, some 2, some (7 / 2)] ∧
    ((calculateEMA [2, 2, 2, 5] 3).length = 4 ∧
      (∀ i, i + 1 < 3 → (calculateEMA [2, 2, 2, 5] 3)[i]? = some none) ∧
      (calculateEMA [2, 2, 2, 5] 3)[3 - 1]? =
        some (some ((([2, 2, 2, 5] : List ℚ).take 3).sum / (3 : ℚ))) ∧
      (∀ i, 3 ≤ i → i < 4 → ∃ prev,
        (calculateEMA [2, 2, 2, 5] 3)[i - 1]? = some (some prev) ∧
        (calculateEMA [2, 2, 2, 5] 3)[i]? =
          some (some ((([2, 2, 2, 5] : List ℚ).getD i 0 - prev) * (2 / ((3 : ℚ) + 1)) + prev))) ∧
      (∀ v : ℚ, ([2, 2, 2, 5] : List ℚ).take 3 = List.replicate 3 v →
        (calculateEMA [2, 2, 2, 5] 3)[3 - 1]? = some (some v))) :=
  ⟨by simp [calculateEMA, emaVal, List.range_succ]; norm_num,
    calculateEMA_spec [2, 2, 2, 5] 3 (by decide) (by norm_num)⟩

end RationalInvestor

namespace RationalInvestor

theorem gainsLosses_loop_snd (l : List ℚ) (h : ∀ c ∈ l, 0 ≤ c) (g lo : ℚ) :
    (l.foldl
      (fun gl change =>
        if 0 < change then (gl.1 + change, gl.2) else (gl.1, gl.2 + |change|))
      (g, lo)).2 = lo := by
  induction l generalizing g lo with
  | nil => rfl
  | cons c t ih =>
    have hc : 0 ≤ c := h c (List.mem_cons_self c t)
    have ht : ∀ x ∈ t, 0 ≤ x := fun x hx => h x (List.mem_cons_of_mem c hx)
    rw [List.foldl_cons]
    by_cases hcpos : 0 < c
    · rw [if_pos hcpos]
      exact ih ht _ _
    · rw [if_neg hcpos]
      have hc0 : c = 0 := le_antisymm (not_lt.mp hcpos) hc
      rw [hc0, abs_zero, add_zero]
      exact ih ht _ _

/-- C6: when the price sequence has at least `period + 1` points and the
last `period` day-over-day differences are all non-negative with at least
one strictly positive, the average loss is zero and `calculateRSI` returns
exactly `100`. -/
theorem calculateRSI_all_gains (prices : List ℚ) (period : ℕ)
    (hlen : period + 1 ≤ prices.length)
    (hpos : ∀ c ∈ recentChanges prices period, 0 ≤ c)
    (hone : ∃ c ∈ recentChanges prices period, 0 < c) :
    calculateRSI prices period = 100 := by
  have hguard : ¬ prices.length < period + 1 := by omega
  have hloss : (gainsLosses (recentChanges prices period)).2 = 0 :=
    gainsLosses_loop_snd (recentChanges prices period) hpos 0 0
  rw [calculateRSI, if_neg hguard]
  simp [hloss]

/-- C6 witness: `prices = [1, 1, 2]`, `period = 2` — differences `[0, 1]`
are non-negative with one strictly positive, so the RSI is `100`. -/
theorem calculateRSI_all_gains_witness : calculateRSI [1, 1, 2] 2 = 100 :=
  calculateRSI_all_gains [1, 1, 2] 2 (by norm_num)
    (by
      intro c hc
      simp [recentChanges, priceChanges, List.range_succ] at hc
      rcases hc with hc | hc
      all_goals rw [hc]
      all_goals norm_num)
    (by
      refine ⟨1, ?_, by norm_num⟩
      simp [recentChanges, priceChanges, List.range_succ]
      norm_num)

/-- C7: with fewer than `period + 1` price points, `calculateRSI` returns
the documented neutral fallback `50` rather than raising an error. -/
theorem calculateRSI_insufficient (prices : List ℚ) (period : ℕ)
    (h : prices.length < period + 1) :
    calculateRSI prices period = 50 := by
  rw [calculateRSI, if_pos h]

/-- C7 witness: period 14 with 10 prices yields RSI exactly 50. -/
theorem calculateRSI_insufficient_witness :
    calculateRSI [1, 2, 3, 4, 5, 6, 7, 8, 9, 10] 14 = 50 :=
  calculateRSI_insufficient [1, 2, 3, 4, 5, 6, 7, 8, 9, 10] 14 (by norm_num)

end RationalInvestor

namespace RationalInvestor

/-! ### Score accounting for `analyzeStock` -/

theorem exists_zero_delta (s : ℚ) (a b : ℤ) (ha : a ≤ 0) (hb : 0 ≤ b) :
    ∃ d : ℤ, s = s + (d : ℚ) ∧ a ≤ d ∧ d ≤ b :=
  ⟨0, by norm_num, ha, hb⟩

theorem trendStep_delta (p : ℚ) (ind : TechnicalIndicators) (s : ℚ) :
    ∃ d : ℤ, (trendStep p ind s).2 = s + (d : ℚ) ∧ -25 ≤ d ∧ d ≤ 25 := by
  obtain ⟨s20, s50, s200, e12, e26, r, m, ms, mh⟩ := ind
  cases s20 <;> cases s50 <;> cases s200 <;> simp only [trendStep]
  all_goals try exact exists_zero_delta s (-25) 25 (by norm_num) (by norm_num)
  split_ifs
  · exact ⟨25, by push_cast; ring, by norm_num, by norm_num⟩
  · exact ⟨5, by push_cast; ring, by norm_num, by norm_num⟩
  · exact ⟨-5, by push_cast; ring, by norm_num, by norm_num⟩
  · exact ⟨-25, by push_cast; ring, by norm_num, by norm_num⟩
  · exact ⟨10, by push_cast; ring, by norm_num, by norm_num⟩
  · exact ⟨-10, by push_cast; ring, by norm_num, by norm_num⟩
  · exact ⟨0, by push_cast; ring, by norm_num, by norm_num⟩

theorem rsiStep_delta (ind : TechnicalIndicators) (s : ℚ) :
    ∃ d : ℤ, (rsiStep ind s).2 = s + (d : ℚ) ∧ -10 ≤ d ∧ d ≤ 10 := by
  obtain ⟨s20, s50, s200, e12, e26, r, m, ms, mh⟩ := ind
  cases r <;> simp only [rsiStep]
  all_goals try exact exists_zero_delta s (-10) 10 (by norm_num) (by norm_num)
  split_ifs
  · exact ⟨10, by push_cast; ring, by norm_num, by norm_num⟩
  · exact ⟨-10, by push_cast; ring, by norm_num, by norm_num⟩
  · exact ⟨0, by push_cast; ring, by norm_num, by norm_num⟩

theorem macdStep_delta (ind : TechnicalIndicators) (s : ℚ) :
    ∃ d : ℤ, (macdStep ind s).2 = s + (d : ℚ) ∧ -10 ≤ d ∧ d ≤ 10 := by
  obtain ⟨s20, s50, s200, e12, e26, r, m, ms, mh⟩ := ind
  cases m <;> cases ms <;> simp only [macdStep]
  all_goals try exact exists_zero_delta s (-10) 10 (by norm_num) (by norm_num)
  split_ifs
  · exact ⟨10, by push_cast; ring, by norm_num, by norm_num⟩
  · exact ⟨-10, by push_cast; ring, by norm_num, by norm_num⟩
  · exact ⟨0, by push_cast; ring, by norm_num, by norm_num⟩

/-- The raw score decomposes as `50` plus three bounded integer deltas, one
per analysis block. -/
theorem rawScore_decomp (p : ℚ) (ind : TechnicalIndicators) :
    ∃ z : ℤ, rawScore p ind = (z : ℚ) ∧ 5 ≤ z ∧ z ≤ 95 := by
  obtain ⟨d1, h1, h1a, h1b⟩ := trendStep_delta p ind 50
  obtain ⟨d2, h2, h2a, h2b⟩ := rsiStep_delta ind (trendStep p ind 50).2
  obtain ⟨d3, h3, h3a, h3b⟩ := macdStep_delta ind (rsiStep ind (trendStep p ind 50).2).2
  refine ⟨50 + d1 + d2 + d3, ?_, by omega, by omega⟩
  show (macdStep ind (rsiStep ind (trendStep p ind 50).2).2).2 = _
  rw [h3, h2, h1]
  push_cast
  ring

theorem jsRound_intCast (z : ℤ) : jsRound (z : ℚ) = z := by
  rw [jsRound, Int.floor_int_add]
  norm_num

theorem overallScore_eq_jsRound (p : ℚ) (ind : TechnicalIndicators) :
    (analyzeStock p ind).overallScore = jsRound (max 0 (min 100 (rawScore p ind))) :=
  rfl

/-- C10: for every current price and snapshot the raw score of
`analyzeStock` lies in `[5, 95]`, so the `[0, 100]` clamp never changes it
and the returned `overallScore` equals the raw score exactly — an integer
in `[5, 95]`. -/
theorem analyzeStock_score_invariant (p : ℚ) (ind : TechnicalIndicators) :
    5 ≤ rawScore p ind ∧ rawScore p ind ≤ 95 ∧
    ((analyzeStock p ind).overallScore : ℚ) = rawScore p ind ∧
    5 ≤ (analyzeStock p ind).overallScore ∧ (analyzeStock p ind).overallScore ≤ 95 := by
  obtain ⟨z, hz, hz5, hz95⟩ := rawScore_decomp p ind
  have h5 : (5 : ℚ) ≤ rawScore p ind := by
    rw [hz]
    exact_mod_cast hz5
  have h95 : rawScore p ind ≤ 95 := by
    rw [hz]
    exact_mod_cast hz95
  have hclamp : max 0 (min 100 (rawScore p ind)) = rawScore p ind := by
    rw [min_eq_right (by linarith), max_eq_right (by linarith)]
  have hscore : (analyzeStock p ind).overallScore = z := by
    rw [overallScore_eq_jsRound, hclamp, hz, jsRound_intCast]
  refine ⟨h5, h95, ?_, ?_, ?_⟩
  · rw [hscore, hz]
  · omega
  · omega

end RationalInvestor

namespace RationalInvestor

/-- C4 counterexample: no current price and snapshot at all can drive the
raw score of `analyzeStock` above 100 or below 0 — the claimed inputs do
not exist. -/
theorem rawScore_overflow_counterexample :
    ¬ ∃ (p : ℚ) (ind : TechnicalIndicators),
      100 < rawScore p ind ∨ rawScore p ind < 0 := by
  rintro ⟨p, ind, h⟩
  obtain ⟨z, hz, hz5, hz95⟩ := rawScore_decomp p ind
  rw [hz] at h
  rcases h with h | h
  · have : (100 : ℤ) < z := by exact_mod_cast h
    omega
  · have : z < (0 : ℤ) := by exact_mod_cast h
    omega

/-- C4 amended: combining all bullish adjustments yields raw score exactly
95 and all bearish adjustments exactly 5 — inside `[0, 100]`, so the clamp
returns them unchanged (`overallScore` 95 resp. 5); on every input the
clamp is the identity and `overallScore` is exactly the (integral) raw
score. -/
theorem analyzeStock_extreme_scores :
    rawScore 100 allBullishSnapshot = 95 ∧
    (analyzeStock 100 allBullishSnapshot).overallScore = 95 ∧
    rawScore 10 allBearishSnapshot = 5 ∧
    (analyzeStock 10 allBearishSnapshot).overallScore = 5 ∧
    (∀ (p : ℚ) (ind : TechnicalIndicators),
      (analyzeStock p ind).overallScore = jsRound (rawScore p ind)) := by
  refine ⟨?_, ?_, ?_, ?_, ?_⟩
  · norm_num [rawScore, analyzeCore, trendStep, rsiStep, macdStep, allBullishSnapshot]
  · norm_num [analyzeStock, analyzeCore, trendStep, rsiStep, macdStep, jsRound,
      allBullishSnapshot]
  · norm_num [rawScore, analyzeCore, trendStep, rsiStep, macdStep, allBearishSnapshot]
  · norm_num [analyzeStock, analyzeCore, trendStep, rsiStep, macdStep, jsRound,
      allBearishSnapshot]
  · intro p ind
    obtain ⟨z, hz, hz5, hz95⟩ := rawScore_decomp p ind
    have h100 : rawScore p ind ≤ 100 := by
      rw [hz]
      exact_mod_cast (by omega : z ≤ (100 : ℤ))
    have h0 : (0 : ℚ) ≤ rawScore p ind := by
      rw [hz]
      exact_mod_cast (by omega : (0 : ℤ) ≤ z)
    rw [overallScore_eq_jsRound, min_eq_right h100, max_eq_right h0]

/-- C5 counterexample: in `zeroSma200Snapshot` all three SMA fields are
present and the price 1 exceeds `sma200 = 0`, yet the score stays at the
baseline 50 — the claimed `+10` adjustment (which would give 60) is not
applied, because the JS guard tests truthiness and `0` is falsy. -/
theorem sma200_presence_counterexample :
    zeroSma200Snapshot.sma20.isSome = true ∧
    zeroSma200Snapshot.sma50.isSome = true ∧
    zeroSma200Snapshot.sma200.isSome = true ∧
    zeroSma200Snapshot.sma200 = some 0 ∧
    (0 : ℚ) < 1 ∧
    rawScore 1 zeroSma200Snapshot = 50 ∧
    (analyzeStock 1 zeroSma200Snapshot).overallScore = 50 ∧
    rawScore 1 zeroSma200Snapshot ≠ 50 + 10 := by
  refine ⟨rfl, rfl, rfl, rfl, by norm_num, ?_, ?_, ?_⟩
  · norm_num [rawScore, analyzeCore, trendStep, rsiStep, macdStep, zeroSma200Snapshot]
  · norm_num [analyzeStock, analyzeCore, trendStep, rsiStep, macdStep, jsRound,
      zeroSma200Snapshot]
  · norm_num [rawScore, analyzeCore, trendStep, rsiStep, macdStep, zeroSma200Snapshot]

theorem rsiStep_specDelta (ind : TechnicalIndicators) (s : ℚ) :
    (rsiStep ind s).2 = s + specRsiDelta (rsiStep ind s).1 := by
  obtain ⟨s20, s50, s200, e12, e26, r, m, ms, mh⟩ := ind
  cases r <;> simp only [rsiStep]
  · rw [specRsiDelta]
    ring
  · split_ifs <;> simp [specRsiDelta] <;> ring

theorem macdStep_specDelta (ind : TechnicalIndicators) (s : ℚ) :
    (macdStep ind s).2 = s + specMacdDelta (macdStep ind s).1 := by
  obtain ⟨s20, s50, s200, e12, e26, r, m, ms, mh⟩ := ind
  cases m <;> cases ms <;> simp only [macdStep]
  all_goals try (rw [specMacdDelta]; ring)
  split_ifs <;> simp [specMacdDelta] <;> ring

theorem trendStep_truthy (p s20 s50 s200 : ℚ) (ind : TechnicalIndicators) (s : ℚ)
    (h20 : ind.sma20 = some s20) (h50 : ind.sma50 = some s50)
    (h200 : ind.sma200 = some s200)
    (hz20 : s20 ≠ 0) (hz50 : s50 ≠ 0) (hz200 : s200 ≠ 0) :
    (trendStep p ind s).2 =
      s + specTrendDelta (trendStep p ind s).1 + (if s200 < p then 10 else -10) := by
  simp only [trendStep, h20, h50, h200, if_pos (And.intro hz20 (And.intro hz50 hz200))]
  split_ifs <;> simp [specTrendDelta] <;> ring

/-- C5 amended: whenever `sma20`, `sma50` and `sma200` are all present AND
nonzero (JS-truthy), the `sma200` adjustment applies — `+10` if the price
strictly exceeds `sma200`, else `−10` — independently of which trend branch
was taken; the raw score is exactly the baseline 50 plus the adjustment of
each reported label plus this `sma200` term. -/
theorem analyzeStock_sma200_adjustment (p s20 s50 s200 : ℚ)
    (ind : TechnicalIndicators)
    (h20 : ind.sma20 = some s20) (h50 : ind.sma50 = some s50)
    (h200 : ind.sma200 = some s200)
    (hz20 : s20 ≠ 0) (hz50 : s50 ≠ 0) (hz200 : s200 ≠ 0) :
    rawScore p ind =
      50 + specTrendDelta (analyzeStock p ind).trend +
        (if s200 < p then 10 else -10) +
        specRsiDelta (analyzeStock p ind).rsiSignal +
        specMacdDelta (analyzeStock p ind).macdSignal := by
  have h1 := trendStep_truthy p s20 s50 s200 ind 50 h20 h50 h200 hz20 hz50 hz200
  have h2 := rsiStep_specDelta ind (trendStep p ind 50).2
  have h3 := macdStep_specDelta ind (rsiStep ind (trendStep p ind 50).2).2
  show (macdStep ind (rsiStep ind (trendStep p ind 50).2).2).2 =
    50 + specTrendDelta (trendStep p ind 50).1 + (if s200 < p then 10 else -10) +
      specRsiDelta (rsiStep ind (trendStep p ind 50).2).1 +
      specMacdDelta (macdStep ind (rsiStep ind (trendStep p ind 50).2).2).1
  rw [h3, h2, h1]

/-- C5 amended witness: a concrete truthy snapshot at price 1 (below its
`sma200 = 5`, in the bearish trend branch). -/
theorem analyzeStock_sma200_adjustment_witness :
    rawScore 1 truthySnapshotExample =
      50 + specTrendDelta (analyzeStock 1 truthySnapshotExample).trend +
        (if (5 : ℚ) < 1 then 10 else -10) +
        specRsiDelta (analyzeStock 1 truthySnapshotExample).rsiSignal +
        specMacdDelta (analyzeStock 1 truthySnapshotExample).macdSignal :=
  analyzeStock_sma200_adjustment 1 2 3 5 truthySnapshotExample rfl rfl rfl
    (by norm_num) (by norm_num) (by norm_num)

end RationalInvestor

namespace RationalInvestor

/-- C8: `calculateIndicators` on an empty bar sequence returns the snapshot
with every field absent (it does not fail), and `analyzeStock` on that
snapshot returns all-neutral labels with `overallScore = 50` for every
current price. -/
theorem empty_snapshot_roundtrip :
    calculateIndicators [] = ({} : TechnicalIndicators) ∧
    (calculateIndicators []).sma20 = none ∧
    (calculateIndicators []).sma50 = none ∧
    (calculateIndicators []).sma200 = none ∧
    (calculateIndicators []).ema12 = none ∧
    (calculateIndicators []).ema26 = none ∧
    (calculateIndicators []).rsi = none ∧
    (calculateIndicators []).macd = none ∧
    (calculateIndicators []).macdSignal = none ∧
    (calculateIndicators []).macdHistogram = none ∧
    ∀ p : ℚ, analyzeStock p (calculateIndicators []) =
      { trend := Trend.neutral, rsiSignal := RsiLabel.neutral,
        macdSignal := MacdLabel.neutral, overallScore := 50 } := by
  refine ⟨rfl, rfl, rfl, rfl, rfl, rfl, rfl, rfl, rfl, rfl, ?_⟩
  intro p
  norm_num [analyzeStock, analyzeCore, trendStep, rsiStep, macdStep, jsRound,
    calculateIndicators]

end RationalInvestor

namespace RationalInvestor

theorem calculateEMA_getD (prices : List ℚ) (W i : ℕ) (h : i < prices.length) :
    (calculateEMA prices W).getD i none = emaVal prices W i := by
  rw [List.getD_eq_getElem?_getD, calculateEMA_getElem? prices W i h]
  rfl

theorem macdLine_getElem? (prices : List ℚ) (i : ℕ) (h : i < prices.length) :
    (macdLine prices)[i]? =
      some (match (calculateEMA prices 12).getD i none,
                  (calculateEMA prices 26).getD i none with
            | some a, some b => some (a - b)
            | _, _ => none) := by
  rw [macdLine, List.getElem?_map, List.getElem?_range h, Option.map_some']

/-- C3: `calculateMACD` forms the MACD line as `EMA12[i] − EMA26[i]` where
both are defined and not-applicable otherwise, compacts it by dropping the
not-applicable entries, feeds EMA(9) of the compacted sequence into the
signal line, and returns the last compacted MACD value (0 if empty), the
last signal value (0 if empty), and their difference as histogram; on fewer
than 26 prices everything degrades to `macd = signal = histogram = 0`. -/
theorem calculateMACD_spec (prices : List ℚ) :
    (∀ i, i < prices.length → ∀ a b,
      (calculateEMA prices 12).getD i none = some a →
      (calculateEMA prices 26).getD i none = some b →
      (macdLine prices)[i]? = some (some (a - b))) ∧
    (∀ i, i < prices.length →
      (calculateEMA prices 12).getD i none = none ∨
        (calculateEMA prices 26).getD i none = none →
      (macdLine prices)[i]? = some none) ∧
    validMacd prices = (macdLine prices).filterMap id ∧
    (calculateMACD prices).macd = (validMacd prices).getLast?.getD 0 ∧
    (calculateMACD prices).signal =
      ((calculateEMA (validMacd prices) 9).getLast?.getD none).getD 0 ∧
    (calculateMACD prices).histogram =
      (calculateMACD prices).macd - (calculateMACD prices).signal ∧
    (prices.length < 26 → calculateMACD prices = ⟨0, 0, 0⟩) := by
  refine ⟨?_, ?_, rfl, rfl, rfl, rfl, ?_⟩
  · intro i hi a b h12 h26
    rw [macdLine_getElem? prices i hi, h12, h26]
  · intro i hi h
    rw [macdLine_getElem? prices i hi]
    rcases h with h | h
    · rw [h]
    · rw [h]
      cases (calculateEMA prices 12).getD i none <;> rfl
  · intro hlen
    have hvalid : validMacd prices = [] := by
      rw [validMacd, List.filterMap_eq_nil]
      intro x hx
      rw [macdLine] at hx
      obtain ⟨i, hi, rfl⟩ := List.mem_map.mp hx
      have hiN : i < prices.length := List.mem_range.mp hi
      have h26 : (calculateEMA prices 26).getD i none = none := by
        rw [calculateEMA_getD prices 26 i hiN,
          emaVal_of_lt prices 26 i (by omega)]
      rw [h26]
      cases (calculateEMA prices 12).getD i none <;> rfl
    rw [calculateMACD, hvalid]
    simp [calculateEMA]

/-- C3 witness: three prices are fewer than 26, so the result is all zero. -/
theorem calculateMACD_spec_witness : calculateMACD [1, 2, 3] = ⟨0, 0, 0⟩ :=
  (calculateMACD_spec [1, 2, 3]).2.2.2.2.2.2 (by norm_num)

end RationalInvestor

namespace RationalInvestor

theorem linearPrices_length (a b : ℚ) (N : ℕ) : (linearPrices a b N).length = N := by
  simp [linearPrices]

theorem linearPrices_getD (a b : ℚ) (N i : ℕ) (h : i < N) :
    (linearPrices a b N).getD i 0 = a + b * (i : ℚ) := by
  rw [linearPrices, List.getD_eq_getElem?_getD, List.getElem?_map,
    List.getElem?_range h, Option.map_some']
  rfl

theorem linearPrices_take (a b : ℚ) (N W : ℕ) (h : W ≤ N) :
    (linearPrices a b N).take W = linearPrices a b W := by
  rw [linearPrices, linearPrices, ← List.map_take, List.take_range,
    Nat.min_eq_left h]

theorem linearPrices_sum12 (a b : ℚ) :
    (linearPrices a b 12).sum = 12 * a + 66 * b := by
  have h : List.range 12 = [0, 1, 2, 3, 4, 5, 6, 7, 8, 9, 10, 11] := rfl
  rw [linearPrices, h]
  simp only [List.map_cons, List.map_nil, List.sum_cons, List.sum_nil]
  push_cast
  ring

theorem linearPrices_sum26 (a b : ℚ) :
    (linearPrices a b 26).sum = 26 * a + 325 * b := by
  have h : List.range 26 =
      [0, 1, 2, 3, 4, 5, 6, 7, 8, 9, 10, 11, 12, 13, 14, 15, 16, 17, 18, 19,
        20, 21, 22, 23, 24, 25] := rfl
  rw [linearPrices, h]
  simp only [List.map_cons, List.map_nil, List.sum_cons, List.sum_nil]
  push_cast
  ring

end RationalInvestor

namespace RationalInvestor

/-- On the linear ramp the EMA(12) seed equals the fixed point of the EMA
lag recurrence, so the closed form `a + b*i - b*11/2` holds at every
defined index. -/
theorem emaVal_linear12 (a b : ℚ) (N i : ℕ) (h1 : 11 ≤ i) (h2 : i < N) :
    emaVal (linearPrices a b N) 12 i = some (a + b * (i : ℚ) - b * (11 / 2)) := by
  revert h2
  induction i, h1 using Nat.le_induction with
  | base =>
    intro h2
    have hseed := emaVal_seed (linearPrices a b N) 12 (by norm_num)
    norm_num at hseed
    rw [hseed, linearPrices_take a b N 12 (by omega), linearPrices_sum12]
    congr 1
    push_cast
    ring
  | succ i hi ih =>
    intro h2
    rw [emaVal_step (linearPrices a b N) 12 (i + 1) (by norm_num) (by omega),
      Nat.add_sub_cancel, ih (by omega)]
    simp only [Option.map_some']
    rw [linearPrices_getD a b N (i + 1) h2]
    congr 1
    push_cast
    ring

/-- On the linear ramp the EMA(26) closed form is `a + b*i - b*25/2`. -/
theorem emaVal_linear26 (a b : ℚ) (N i : ℕ) (h1 : 25 ≤ i) (h2 : i < N) :
    emaVal (linearPrices a b N) 26 i = some (a + b * (i : ℚ) - b * (25 / 2)) := by
  revert h2
  induction i, h1 using Nat.le_induction with
  | base =>
    intro h2
    have hseed := emaVal_seed (linearPrices a b N) 26 (by norm_num)
    norm_num at hseed
    rw [hseed, linearPrices_take a b N 26 (by omega), linearPrices_sum26]
    congr 1
    push_cast
    ring
  | succ i hi ih =>
    intro h2
    rw [emaVal_step (linearPrices a b N) 26 (i + 1) (by norm_num) (by omega),
      Nat.add_sub_cancel, ih (by omega)]
    simp only [Option.map_some']
    rw [linearPrices_getD a b N (i + 1) h2]
    congr 1
    push_cast
    ring

end RationalInvestor

namespace RationalInvestor

theorem filterMap_id_replicate_some (x : ℚ) (n : ℕ) :
    (List.replicate n (some x)).filterMap id = List.replicate n x := by
  induction n with
  | zero => rfl
  | succ n ih =>
    rw [List.replicate_succ, List.replicate_succ, List.filterMap_cons]
    simp [ih]

/-- On a linear ramp of length `N ≥ 26` the MACD line is not-applicable for
the first 25 indices and the constant `7 * b` afterwards. -/
theorem macdLine_linear (a b : ℚ) (N : ℕ) (hN : 26 ≤ N) :
    macdLine (linearPrices a b N) =
      ((List.range 25).map fun _ => (none : Option ℚ)) ++
        List.replicate (N - 25) (some (7 * b)) := by
  rw [macdLine, linearPrices_length]
  rw [show List.range N = List.range 25 ++ (List.range (N - 25)).map fun j => 25 + j by
    rw [← List.range_add]
    congr 1
    omega]
  rw [List.map_append, List.map_map]
  congr 1
  · apply List.map_congr_left
    intro i hi
    have hi25 : i < 25 := List.mem_range.mp hi
    have hiN : i < (linearPrices a b N).length := by
      rw [linearPrices_length]
      omega
    have h26 : (calculateEMA (linearPrices a b N) 26).getD i none = none := by
      rw [calculateEMA_getD _ 26 i hiN, emaVal_of_lt _ 26 i (by omega)]
    simp only [h26]
    cases (calculateEMA (linearPrices a b N) 12).getD i none <;> rfl
  · have hconst : ∀ j ∈ List.range (N - 25),
        ((fun i =>
          match (calculateEMA (linearPrices a b N) 12).getD i none,
                (calculateEMA (linearPrices a b N) 26).getD i none with
          | some a12, some a26 => some (a12 - a26)
          | _, _ => none) ∘ fun j => 25 + j) j = some (7 * b) := by
      intro j hj
      have hjN : 25 + j < N := by
        have := List.mem_range.mp hj
        omega
      have hlen : 25 + j < (linearPrices a b N).length := by
        rw [linearPrices_length]
        omega
      have h12 : (calculateEMA (linearPrices a b N) 12).getD (25 + j) none =
          some (a + b * ((25 + j : ℕ) : ℚ) - b * (11 / 2)) := by
        rw [calculateEMA_getD _ 12 (25 + j) hlen,
          emaVal_linear12 a b N (25 + j) (by omega) hjN]
      have h26 : (calculateEMA (linearPrices a b N) 26).getD (25 + j) none =
          some (a + b * ((25 + j : ℕ) : ℚ) - b * (25 / 2)) := by
        rw [calculateEMA_getD _ 26 (25 + j) hlen,
          emaVal_linear26 a b N (25 + j) (by omega) hjN]
      simp only [Function.comp_apply, h12, h26]
      congr 1
      ring
    rw [List.map_congr_left hconst, List.map_const', List.length_range]

/-- On a linear ramp of length `N ≥ 26` the compacted MACD values are
`N - 25` copies of `7 * b`. -/
theorem validMacd_linear (a b : ℚ) (N : ℕ) (hN : 26 ≤ N) :
    validMacd (linearPrices a b N) = List.replicate (N - 25) (7 * b) := by
  rw [validMacd, macdLine_linear a b N hN, List.filterMap_append]
  have h1 : ((List.range 25).map fun _ => (none : Option ℚ)).filterMap id = [] := by
    rw [List.filterMap_eq_nil_iff]
    intro x hx
    obtain ⟨i, -, rfl⟩ := List.mem_map.mp hx
    rfl
  rw [h1, filterMap_id_replicate_some, List.nil_append]

/-- C9: on every strictly increasing linear price sequence
`prices[i] = a + b*i` (`b > 0`) of length at least 40, `calculateMACD`
returns `macd > 0` — the last compacted MACD value is exactly `7 * b`. -/
theorem calculateMACD_uptrend (a b : ℚ) (N : ℕ) (hb : 0 < b) (hN : 40 ≤ N) :
    0 < (calculateMACD (linearPrices a b N)).macd := by
  have hmacd : (calculateMACD (linearPrices a b N)).macd =
      (validMacd (linearPrices a b N)).getLast?.getD 0 := rfl
  rw [hmacd, validMacd_linear a b N (by omega), List.getLast?_replicate,
    if_neg (by omega)]
  simp only [Option.getD_some]
  linarith

/-- C9 witness: the ramp `0, 1, 2, ..., 39` has positive MACD. -/
theorem calculateMACD_uptrend_witness :
    0 < (calculateMACD (linearPrices 0 1 40)).macd :=
  calculateMACD_uptrend 0 1 40 (by norm_num) (by norm_num)

end RationalInvestor
